import Mathlib

/-!
Verification of the Psygine execution core: a shallow embedding of
`src/psygine/core/state_manager.cpp`, the main-loop arithmetic of
`src/psygine/core/runtime.cpp`, and the stopwatch of
`src/psygine/utilities/clock.cpp`, together with theorems settling the
specification claims about them.

Conventions of the embedding:
- The layer stack `layers_` (a `std::vector<Layer>`) is a `List Layer`
  with index 0 = bottom of the stack and the last element = top,
  exactly as in the source.
- C++ `double` time quantities are modelled as `ℚ` (exact arithmetic).
- A callback fan-out is modelled by the list of layers that receive the
  callback, in invocation order.
-/

/-- One stack layer: the `Layer` struct of `state_manager.hpp` (a state
pointer plus its `LayerFlags`).  `id` stands for the identity of the owned
`BaseState` object; `quitOk` is the (scripted) value that the owned state returns from
`onQuitRequested()`. -/
structure Layer where
  id : Nat
  modal : Bool
  allowRenderBelow : Bool
  quitOk : Bool
  deriving DecidableEq, Repr

instance : Inhabited Layer := ⟨⟨0, false, false, true⟩⟩

/-- The `PendingOp` struct of `state_manager.hpp`: the `OpKind` tag plus the
state payload (non-null exactly for Push and ReplaceTop). -/
inductive PendingOp where
  | push (l : Layer)
  | replaceTop (l : Layer)
  | pop
  | clear
  deriving DecidableEq, Repr

/-- A lifecycle callback emitted while applying pending operations:
`onEnter()` or `onExit()` of the state with the given identity. -/
inductive LifeEvent where
  | enter (id : Nat)
  | exit (id : Nat)
  deriving DecidableEq, Repr

/-- `StateManager::topmostModalIndex` (state_manager.cpp:143-153): scan the
stack from the top down, returning the index of the first (i.e. topmost)
modal layer; `none` models the `NPOS` sentinel. -/
def topmostModalIndex : List Layer → Option Nat
  | [] => none
  | l :: ls =>
    match topmostModalIndex ls with
    | some i => some (i + 1)
    | none => if l.modal then some 0 else none

/-- `StateManager::updateStartIndex` (state_manager.cpp:169-177): the
topmost modal index if one exists, else `size() - 1` (top only). -/
def updateStartIndex (ls : List Layer) : Nat :=
  match topmostModalIndex ls with
  | some i => i
  | none => ls.length - 1

/-- `StateManager::renderStartIndex` (state_manager.cpp:155-167): if a
topmost modal exists, its index unless its `allowRenderBelow` flag is set
(then 0, showing what is beneath); with no modal, `size() - 1`. -/
def renderStartIndex (ls : List Layer) : Nat :=
  match topmostModalIndex ls with
  | some i => if (ls.getD i default).allowRenderBelow then 0 else i
  | none => ls.length - 1

/-- `StateManager::onFixedUpdate` (state_manager.cpp:95-109): the layers
receiving the callback, in invocation order — indices
`updateStartIndex() .. size()-1` ascending (empty stack: none). -/
def onFixedUpdateCalls (ls : List Layer) : List Layer :=
  if ls.isEmpty then [] else ls.drop (updateStartIndex ls)

/-- `StateManager::onUpdate` (state_manager.cpp:111-125): same loop bounds
as `onFixedUpdate`. -/
def onUpdateCalls (ls : List Layer) : List Layer :=
  if ls.isEmpty then [] else ls.drop (updateStartIndex ls)

/-- `StateManager::onRender` (state_manager.cpp:127-141): indices
`renderStartIndex() .. size()-1` ascending. -/
def onRenderCalls (ls : List Layer) : List Layer :=
  if ls.isEmpty then [] else ls.drop (renderStartIndex ls)

/-- Helper for the loop body of `onEvent`: walking a top-first list, every layer
is visited until (and including) the first modal one, where the loop
breaks. -/
def takeThroughModal : List Layer → List Layer
  | [] => []
  | l :: ls => if l.modal then [l] else l :: takeThroughModal ls

/-- `StateManager::onEvent` (state_manager.cpp:76-93): dispatch from the top
layer downward, stopping right after the first modal layer. -/
def onEventCalls (ls : List Layer) : List Layer :=
  if ls.isEmpty then [] else takeThroughModal ls.reverse

/-- Loop body of `StateManager::onQuitRequested` over the scanned segment in
top-first order: `onQuitRequested()` of each layer is invoked until one
returns false, which breaks the loop with overall result false.  Returns
(overall result, layers whose callback was invoked, in order). -/
def quitScanAux : List Layer → Bool × List Layer
  | [] => (true, [])
  | l :: ls =>
    if l.quitOk then
      let r := quitScanAux ls
      (r.1, l :: r.2)
    else (false, [l])

/-- `StateManager::onQuitRequested` (state_manager.cpp:54-74): empty stack
allows the quit; otherwise scan indices `size()-1` down to
`updateStartIndex()`. -/
def onQuitScan (ls : List Layer) : Bool × List Layer :=
  if ls.isEmpty then (true, [])
  else quitScanAux ((ls.drop (updateStartIndex ls)).reverse)

/-- One iteration of the loop in `StateManager::applyPending`
(state_manager.cpp:179-225): the new layer list plus the lifecycle
callbacks (`onEnter`/`onExit`) emitted, in order. -/
def applyOp (ls : List Layer) : PendingOp → List Layer × List LifeEvent
  | .push l => (ls ++ [l], [.enter l.id])
  | .replaceTop l =>
    match ls.getLast? with
    | some t => (ls.dropLast ++ [l], [.exit t.id, .enter l.id])
    | none => (ls ++ [l], [.enter l.id])
  | .pop =>
    match ls.getLast? with
    | some t => (ls.dropLast, [.exit t.id])
    | none => (ls, [])
  | .clear => ([], ls.reverse.map (fun l => .exit l.id))

/-- `StateManager::applyPending`: fold every queued op over the stack in
FIFO order, concatenating the emitted lifecycle callbacks. -/
def applyPendingOps (ls : List Layer) : List PendingOp → List Layer × List LifeEvent
  | [] => (ls, [])
  | op :: ops =>
    let r := applyOp ls op
    let rest := applyPendingOps r.1 ops
    (rest.1, r.2 ++ rest.2)

/-- The mutable fields of `StateManager` (state_manager.hpp:134-136):
`layers_`, `pending_` and the `iterating_` guard flag. -/
structure SMState where
  layers : List Layer
  pending : List PendingOp
  iterating : Bool
  deriving DecidableEq, Repr

/-- One primitive call a state callback can make on the `StateManager`.
`beginDispatch`/`endDispatch` mark entry/exit of a nested callback fan-out
(`onEvent`/`onQuitRequested`/`onFixedUpdate`/`onUpdate`/`onRender` invoked
re-entrantly from inside a callback): the source sets `iterating_ = true`
on entry to each such fan-out and `iterating_ = false` on exit. -/
inductive SMAct where
  | push (l : Layer)
  | replaceTop (l : Layer)
  | pop
  | clear
  | enterFrame
  | exitFrame
  | beginDispatch
  | endDispatch
  deriving DecidableEq, Repr

/-- Effect of one primitive `StateManager` call on the manager fields.
`push`/`replaceTop`/`pop`/`clear` only append to `pending_`
(state_manager.cpp:16-36); `onEnterFrame`/`onExitFrame` apply the queue
only when `iterating_` is clear (state_manager.cpp:38-52). -/
def smStep (s : SMState) : SMAct → SMState
  | .push l => { s with pending := s.pending ++ [PendingOp.push l] }
  | .replaceTop l => { s with pending := s.pending ++ [PendingOp.replaceTop l] }
  | .pop => { s with pending := s.pending ++ [PendingOp.pop] }
  | .clear => { s with pending := s.pending ++ [PendingOp.clear] }
  | .enterFrame =>
    if s.iterating then s
    else { s with layers := (applyPendingOps s.layers s.pending).1, pending := [] }
  | .exitFrame =>
    if s.iterating then s
    else { s with layers := (applyPendingOps s.layers s.pending).1, pending := [] }
  | .beginDispatch => { s with iterating := true }
  | .endDispatch => { s with iterating := false }

/-- Run a sequence of primitive `StateManager` calls. -/
def smRun (s : SMState) : List SMAct → SMState
  | [] => s
  | a :: as => smRun (smStep s a) as

/-!  Runtime (runtime.cpp): main-loop arithmetic and run/quit guards.  -/

/-- The inner catch-up loop of `Runtime::run` (runtime.cpp:238-243):
`while (accumulator >= fixedTimestep && updatesThisFrame < maxUpdatesPerTick)`.
The fuel argument is the number of still-permitted updates
(`maxUpdatesPerTick - updatesThisFrame`, initially `maxUpdatesPerTick`
because `updatesThisFrame` is reset to 0 just before the loop).  Returns the
final accumulator and the number of `onFixedUpdate(fixedTimestep)` calls. -/
def fixedLoop (ft : ℚ) : ℚ → Nat → ℚ × Nat
  | acc, 0 => (acc, 0)
  | acc, fuel + 1 =>
    if ft ≤ acc then
      let r := fixedLoop ft (acc - ft) fuel
      (r.1, r.2 + 1)
    else (acc, 0)

/-- `std::fmod` for positive divisor and non-negative dividend, as used at
runtime.cpp:248: `a - b * floor(a / b)`. -/
def fmod (a b : ℚ) : ℚ := a - b * ((⌊a / b⌋ : ℤ) : ℚ)

/-- Steps 4-5 of one `Runtime::run` iteration (runtime.cpp:237-249): the
capped catch-up loop, then — if the accumulator still holds at least one
fixed timestep — truncation via `std::fmod`.  Returns the post-frame
accumulator and the number of fixed-update calls. -/
def frameAdvance (ft : ℚ) (maxU : Nat) (acc : ℚ) : ℚ × Nat :=
  let r := fixedLoop ft acc maxU
  if ft ≤ r.1 then (fmod r.1 ft, r.2) else r

/-- The interpolation expression of runtime.cpp:253:
`accumulator > 0.0 ? std::min(accumulator / fixedTimestep, 0.999999) : 0.0`. -/
def interpolation (ft acc : ℚ) : ℚ :=
  if 0 < acc then min (acc / ft) 0.999999 else 0

/-- The `initialized_` and `running_` flags of `Runtime` (runtime.hpp:435-436). -/
structure RuntimeFlags where
  initialized : Bool
  running : Bool
  deriving DecidableEq, Repr

/-- How a call to `Runtime::run` fares against its guards: rejected with a
logged error (runtime.cpp:199-208), or allowed into the main loop. -/
inductive RunAttempt where
  | rejectedNotInitialized
  | rejectedAlreadyRunning
  | entered
  deriving DecidableEq, Repr

/-- The guard prologue of `Runtime::run` (runtime.cpp:197-215): reject when
not initialized or already running, leaving the flags unchanged; otherwise
set `running_ = true` and enter the loop. -/
def runStart (s : RuntimeFlags) : RuntimeFlags × RunAttempt :=
  if !s.initialized then (s, .rejectedNotInitialized)
  else if s.running then (s, .rejectedAlreadyRunning)
  else ({ s with running := true }, .entered)

/-- `Runtime::quit` (runtime.cpp:263-276): a no-op unless currently running
and `onQuitRequested()` (whose scripted result is `allow`) approves; only
then is `running_` cleared. -/
def quitCall (allow : Bool) (s : RuntimeFlags) : RuntimeFlags :=
  if !s.running then s
  else if !allow then s
  else { s with running := false }

/-!  Clock (utilities/clock.cpp): the stopwatch utility.  Timestamps
returned by `Now()` are modelled as natural numbers; each operation takes
the value `Now()` would return at that moment as an argument.  -/

/-- The `start_` and `end_` time points of `Clock` (clock.hpp). -/
structure ClockState where
  start_ : Nat
  end_ : Nat
  deriving DecidableEq, Repr

/-- `Clock::running` (clock.cpp:66-69): `start_ != end_`. -/
def ClockState.running (c : ClockState) : Bool := c.start_ != c.end_

/-- The `Clock` constructor (clock.cpp:12-14): `start_{Now()}, end_(start_)`. -/
def clockInit (now : Nat) : ClockState := ⟨now, now⟩

/-- `Clock::start` (clock.cpp:16-25): no-op when running, else set both
time points to `Now()`. -/
def clockStart (now : Nat) (c : ClockState) : ClockState :=
  if c.running then c else ⟨now, now⟩

/-- `Clock::stop` (clock.cpp:27-35): no-op when not running, else record
`end_ = Now()`. -/
def clockStop (now : Nat) (c : ClockState) : ClockState :=
  if !c.running then c else { c with end_ := now }

/-- `Clock::reset` (clock.cpp:45-49): set both time points to `Now()`. -/
def clockReset (now : Nat) (_c : ClockState) : ClockState := ⟨now, now⟩

/-- `Clock::elapsed` (clock.cpp:51-54): `Elapsed(start_, end_) = end_ - start_`,
a signed tick count. -/
def elapsedDuration (c : ClockState) : Int := (c.end_ : Int) - (c.start_ : Int)

/-- `Clock::elapsedSeconds` (clock.cpp:56-59), with nanosecond ticks. -/
def elapsedSecondsQ (c : ClockState) : ℚ := ((elapsedDuration c : ℤ) : ℚ) / 1000000000

/-- `Clock::elapsedMilliseconds` (clock.cpp:61-64), with nanosecond ticks. -/
def elapsedMillisecondsQ (c : ClockState) : ℚ := ((elapsedDuration c : ℤ) : ℚ) / 1000000

/-- `Clock::restart` (clock.cpp:37-43): `stop(); elapsed(); start()`,
returning the elapsed duration.  `n1` and `n2` are the values `Now()`
yields inside `stop()` and `start()` respectively. -/
def clockRestart (n1 n2 : Nat) (c : ClockState) : ClockState × Int :=
  let c1 := clockStop n1 c
  let e := elapsedDuration c1
  (clockStart n2 c1, e)

/-- One call in a `Clock` usage history, with the timestamp(s) `Now()`
produces during that call. -/
inductive ClockOp where
  | start (now : Nat)
  | stop (now : Nat)
  | restart (n1 n2 : Nat)
  | reset (now : Nat)
  deriving DecidableEq, Repr

/-- Apply one `Clock` call to the stopwatch state. -/
def clockApply (c : ClockState) : ClockOp → ClockState
  | .start n => clockStart n c
  | .stop n => clockStop n c
  | .restart n1 n2 => (clockRestart n1 n2 c).1
  | .reset n => clockReset n c

/-- Apply a whole call history to the stopwatch state. -/
def clockRunOps (c : ClockState) : List ClockOp → ClockState
  | [] => c
  | op :: ops => clockRunOps (clockApply c op) ops

/-!  Concrete layers used by the worked examples of the spec: a stack
`[A, B(modal), C]` with `C` on top. -/

/-- Example layer A: bottom, non-modal. -/
def exA : Layer := ⟨0, false, false, true⟩

/-- Example layer B: modal, `allowRenderBelow = false`. -/
def exB : Layer := ⟨1, true, false, true⟩

/-- Example layer B with `allowRenderBelow = true`. -/
def exBshow : Layer := ⟨1, true, true, true⟩

/-- Example layer C: top, non-modal. -/
def exC : Layer := ⟨2, false, false, true⟩

/-- The identities whose `onEnter()` ran, in order, in a lifecycle trace. -/
def entersOf (tr : List LifeEvent) : List Nat :=
  tr.filterMap (fun e => match e with | .enter i => some i | .exit _ => none)

/-- The identities whose `onExit()` ran, in order, in a lifecycle trace. -/
def exitsOf (tr : List LifeEvent) : List Nat :=
  tr.filterMap (fun e => match e with | .exit i => some i | .enter _ => none)

/-- The identities of the states inserted by the Push and ReplaceTop
operations of a pending queue, in arrival order. -/
def pushedIds (ops : List PendingOp) : List Nat :=
  ops.filterMap (fun op => match op with
    | .push l => some l.id
    | .replaceTop l => some l.id
    | .pop => none
    | .clear => none)

/-- The identities of a layer stack, as a multiset. -/
def idMultiset (ls : List Layer) : Multiset Nat := (ls.map Layer.id : List Nat)

/-!  Helper lemmas about the segment computations.  -/

theorem topmostModalIndex_eq_none {ls : List Layer} (h : ∀ x ∈ ls, x.modal = false) :
    topmostModalIndex ls = none := by
  induction ls with
  | nil => rfl
  | cons l t ih =>
    have hl : l.modal = false := h l (by simp)
    have ht : topmostModalIndex t = none := ih (fun x hx => h x (by simp [hx]))
    simp [topmostModalIndex, ht, hl]

theorem topmostModalIndex_append {rest : List Layer} {i : Nat} (lower : List Layer)
    (h : topmostModalIndex rest = some i) :
    topmostModalIndex (lower ++ rest) = some (lower.length + i) := by
  induction lower with
  | nil => simpa using h
  | cons l t ih =>
    simp only [List.cons_append, topmostModalIndex, List.append_eq, ih, List.length_cons]
    congr 1
    omega

theorem topmostModalIndex_decomp {upper : List Layer} {m : Layer} (lower : List Layer)
    (hm : m.modal = true) (hu : ∀ x ∈ upper, x.modal = false) :
    topmostModalIndex (lower ++ m :: upper) = some lower.length := by
  have h1 : topmostModalIndex (m :: upper) = some 0 := by
    simp [topmostModalIndex, topmostModalIndex_eq_none hu, hm]
  simpa using topmostModalIndex_append lower h1

theorem updateStartIndex_decomp {upper : List Layer} {m : Layer} (lower : List Layer)
    (hm : m.modal = true) (hu : ∀ x ∈ upper, x.modal = false) :
    updateStartIndex (lower ++ m :: upper) = lower.length := by
  simp [updateStartIndex, topmostModalIndex_decomp lower hm hu]

theorem updateStartIndex_noModal {ls : List Layer} (h : ∀ x ∈ ls, x.modal = false) :
    updateStartIndex ls = ls.length - 1 := by
  simp [updateStartIndex, topmostModalIndex_eq_none h]

theorem append_cons_isEmpty (lower : List Layer) (m : Layer) (upper : List Layer) :
    (lower ++ m :: upper).isEmpty = false := by
  cases lower <;> rfl

theorem drop_length_append (low : List Layer) (t : Layer) :
    (low ++ [t]).drop ((low ++ [t]).length - 1) = [t] := by
  have h : (low ++ [t]).length - 1 = low.length := by simp
  rw [h, List.drop_left]


/-!  Claim theorems.  -/

/-- C3: for every non-empty layer stack, `StateManager::onFixedUpdate` and
`StateManager::onUpdate` invoke the callback on exactly the active update
segment in bottom-to-top order: with a topmost modal layer `m`, the segment
is `m` and everything above it; with no modal layer, just the top layer.
In particular with `[A, B(modal), C]` only B then C are invoked, never A. -/
theorem stateManager_C3_updateSegment :
    (∀ (lower upper : List Layer) (m : Layer),
        m.modal = true → (∀ x ∈ upper, x.modal = false) →
        onFixedUpdateCalls (lower ++ m :: upper) = m :: upper ∧
        onUpdateCalls (lower ++ m :: upper) = m :: upper) ∧
    (∀ (low : List Layer) (t : Layer),
        (∀ x ∈ low, x.modal = false) → t.modal = false →
        onFixedUpdateCalls (low ++ [t]) = [t] ∧
        onUpdateCalls (low ++ [t]) = [t]) ∧
    onFixedUpdateCalls [exA, exB, exC] = [exB, exC] ∧
    onUpdateCalls [exA, exB, exC] = [exB, exC] := by
  refine ⟨?_, ?_, by decide, by decide⟩
  · intro lower upper m hm hu
    have hidx := updateStartIndex_decomp lower hm hu
    have hne := append_cons_isEmpty lower m upper
    constructor <;>
      simp [onFixedUpdateCalls, onUpdateCalls, hne, hidx, List.drop_left]
  · intro low t hlow ht
    have hall : ∀ x ∈ low ++ [t], x.modal = false := by
      intro x hx
      rcases List.mem_append.mp hx with h | h
      · exact hlow x h
      · simp at h; subst h; exact ht
    have hidx := updateStartIndex_noModal hall
    have hne := append_cons_isEmpty low t []
    constructor <;>
      simp [onFixedUpdateCalls, onUpdateCalls, hne, hidx, drop_length_append]

/-- C3 witness: the modal clause applied to the concrete stack `[B, C]`. -/
theorem stateManager_C3_witness :
    onFixedUpdateCalls [exB, exC] = [exB, exC] :=
  (stateManager_C3_updateSegment.1 [] [exC] exB (by decide) (by decide)).1

/-- C4: for every non-empty layer stack, `StateManager::onRender` invokes
`onRender` on exactly the active render segment in bottom-to-top order:
with a topmost modal layer whose `allowRenderBelow` flag is set, every
layer from the bottom up; with a topmost modal and the flag clear, the
modal layer and everything above it; with no modal layer, just the top. -/
theorem stateManager_C4_renderSegment :
    (∀ (lower upper : List Layer) (m : Layer),
        m.modal = true → m.allowRenderBelow = true → (∀ x ∈ upper, x.modal = false) →
        onRenderCalls (lower ++ m :: upper) = lower ++ m :: upper) ∧
    (∀ (lower upper : List Layer) (m : Layer),
        m.modal = true → m.allowRenderBelow = false → (∀ x ∈ upper, x.modal = false) →
        onRenderCalls (lower ++ m :: upper) = m :: upper) ∧
    (∀ (low : List Layer) (t : Layer),
        (∀ x ∈ low, x.modal = false) → t.modal = false →
        onRenderCalls (low ++ [t]) = [t]) ∧
    onRenderCalls [exA, exBshow, exC] = [exA, exBshow, exC] ∧
    onRenderCalls [exA, exB, exC] = [exB, exC] := by
  refine ⟨?_, ?_, ?_, by decide, by decide⟩
  · intro lower upper m hm hshow hu
    have htop := topmostModalIndex_decomp lower hm hu
    have hget : (lower ++ m :: upper).getD lower.length default = m := by
      rw [List.getD_append_right _ _ _ _ (le_refl _)]
      simp
    have hidx : renderStartIndex (lower ++ m :: upper) = 0 := by
      simp only [renderStartIndex, htop]
      rw [hget, hshow]
      simp
    have hne := append_cons_isEmpty lower m upper
    simp [onRenderCalls, hne, hidx]
  · intro lower upper m hm hshow hu
    have htop := topmostModalIndex_decomp lower hm hu
    have hget : (lower ++ m :: upper).getD lower.length default = m := by
      rw [List.getD_append_right _ _ _ _ (le_refl _)]
      simp
    have hidx : renderStartIndex (lower ++ m :: upper) = lower.length := by
      simp only [renderStartIndex, htop]
      rw [hget, hshow]
      simp
    have hne := append_cons_isEmpty lower m upper
    simp [onRenderCalls, hne, hidx, List.drop_left]
  · intro low t hlow ht
    have hall : ∀ x ∈ low ++ [t], x.modal = false := by
      intro x hx
      rcases List.mem_append.mp hx with h | h
      · exact hlow x h
      · simp at h; subst h; exact ht
    have hidx : renderStartIndex (low ++ [t]) = (low ++ [t]).length - 1 := by
      simp [renderStartIndex, topmostModalIndex_eq_none hall]
    have hne := append_cons_isEmpty low t []
    simp [onRenderCalls, hne, hidx, drop_length_append]

/-- C4 witness: the allowRenderBelow clause applied to `[A, B(modal, show), C]`. -/
theorem stateManager_C4_witness :
    onRenderCalls [exA] ++ onRenderCalls [exBshow, exC] = [exA, exBshow, exC] := by
  have h := (stateManager_C4_renderSegment.1 [exA] [exC] exBshow (by decide) (by decide)
    (by decide))
  simpa using h

theorem takeThroughModal_allNonModal {xs : List Layer} (h : ∀ x ∈ xs, x.modal = false) :
    takeThroughModal xs = xs := by
  induction xs with
  | nil => rfl
  | cons l t ih =>
    have hl : l.modal = false := h l (by simp)
    have ht := ih (fun x hx => h x (by simp [hx]))
    simp [takeThroughModal, hl, ht]

theorem takeThroughModal_append {as rest : List Layer} (h : ∀ x ∈ as, x.modal = false) :
    takeThroughModal (as ++ rest) = as ++ takeThroughModal rest := by
  induction as with
  | nil => rfl
  | cons l t ih =>
    have hl : l.modal = false := h l (by simp)
    have ht := ih (fun x hx => h x (by simp [hx]))
    simp [takeThroughModal, hl, ht]

/-- C5: `StateManager::onEvent` dispatches top-to-bottom starting at the
top layer, and propagation stops immediately after the first modal layer:
the modal layer itself receives the event but nothing below it does; with
no modal layer every layer receives it, top first.  In particular with
`[A, B(modal), C]` the event reaches C then B and never A. -/
theorem stateManager_C5_eventShortCircuit :
    (∀ (lower upper : List Layer) (m : Layer),
        m.modal = true → (∀ x ∈ upper, x.modal = false) →
        onEventCalls (lower ++ m :: upper) = upper.reverse ++ [m]) ∧
    (∀ ls : List Layer, (∀ x ∈ ls, x.modal = false) → onEventCalls ls = ls.reverse) ∧
    onEventCalls [exA, exB, exC] = [exC, exB] ∧
    exA ∉ onEventCalls [exA, exB, exC] := by
  refine ⟨?_, ?_, by decide, by decide⟩
  · intro lower upper m hm hu
    have hne := append_cons_isEmpty lower m upper
    have hrev : (lower ++ m :: upper).reverse = upper.reverse ++ (m :: lower.reverse) := by
      simp
    have hu2 : ∀ x ∈ upper.reverse, x.modal = false := by
      intro x hx
      exact hu x (List.mem_reverse.mp hx)
    calc onEventCalls (lower ++ m :: upper)
        = takeThroughModal (upper.reverse ++ (m :: lower.reverse)) := by
          simp [onEventCalls, hne, hrev]
      _ = upper.reverse ++ takeThroughModal (m :: lower.reverse) :=
          takeThroughModal_append hu2
      _ = upper.reverse ++ [m] := by simp [takeThroughModal, hm]
  · intro ls h
    cases ls with
    | nil => rfl
    | cons l t =>
      have h2 : ∀ x ∈ (l :: t).reverse, x.modal = false := by
        intro x hx
        exact h x (List.mem_reverse.mp hx)
      simp only [onEventCalls, List.isEmpty_cons]
      exact takeThroughModal_allNonModal h2

/-- C5 witness: the modal clause applied to the concrete stack `[A, B, C]`. -/
theorem stateManager_C5_witness :
    onEventCalls [exA, exB, exC] = [exC] ++ [exB] :=
  stateManager_C5_eventShortCircuit.1 [exA] [exC] exB (by decide) (by decide)

theorem quitScanAux_allOk {xs : List Layer} (h : ∀ x ∈ xs, x.quitOk = true) :
    quitScanAux xs = (true, xs) := by
  induction xs with
  | nil => rfl
  | cons l t ih =>
    have hl : l.quitOk = true := h l (by simp)
    have ht := ih (fun x hx => h x (by simp [hx]))
    simp [quitScanAux, hl, ht]

theorem quitScanAux_firstVeto {pre post : List Layer} {l : Layer}
    (hpre : ∀ x ∈ pre, x.quitOk = true) (hl : l.quitOk = false) :
    quitScanAux (pre ++ l :: post) = (false, pre ++ [l]) := by
  induction pre with
  | nil => simp [quitScanAux, hl]
  | cons a t ih =>
    have ha : a.quitOk = true := hpre a (by simp)
    have ht := ih (fun x hx => hpre x (by simp [hx]))
    simp [quitScanAux, ha, ht]

/-- C6: `StateManager::onQuitRequested` scans the active update segment
from the top layer downward; the scan stops at the first layer whose
`onQuitRequested()` returns false (no lower layer is invoked, overall
result false); if every scanned layer returns true the result is true;
the empty stack returns true without invoking any callback. -/
theorem stateManager_C6_quitVeto :
    onQuitScan [] = (true, []) ∧
    (∀ (lower upper : List Layer) (m : Layer),
        m.modal = true → (∀ x ∈ upper, x.modal = false) →
        ((∀ x ∈ m :: upper, x.quitOk = true) →
            onQuitScan (lower ++ m :: upper) = (true, upper.reverse ++ [m])) ∧
        (∀ (pre post : List Layer) (l : Layer),
            upper.reverse ++ [m] = pre ++ l :: post →
            (∀ x ∈ pre, x.quitOk = true) → l.quitOk = false →
            onQuitScan (lower ++ m :: upper) = (false, pre ++ [l]))) ∧
    (∀ (low : List Layer) (t : Layer),
        (∀ x ∈ low, x.modal = false) → t.modal = false →
        onQuitScan (low ++ [t]) = (t.quitOk, [t])) := by
  refine ⟨rfl, ?_, ?_⟩
  · intro lower upper m hm hu
    have hne := append_cons_isEmpty lower m upper
    have hidx := updateStartIndex_decomp lower hm hu
    have hseg : onQuitScan (lower ++ m :: upper)
        = quitScanAux (upper.reverse ++ [m]) := by
      simp [onQuitScan, hne, hidx, List.drop_left]
    constructor
    · intro hok
      have hall : ∀ x ∈ upper.reverse ++ [m], x.quitOk = true := by
        intro x hx
        rcases List.mem_append.mp hx with h | h
        · exact hok x (by simp [List.mem_reverse.mp h])
        · have hxm : x = m := by simpa using h
          rw [hxm]
          exact hok m (by simp)
      rw [hseg, quitScanAux_allOk hall]
    · intro pre post l hdec hpre hl
      rw [hseg, hdec, quitScanAux_firstVeto hpre hl]
  · intro low t hlow ht
    have hall : ∀ x ∈ low ++ [t], x.modal = false := by
      intro x hx
      rcases List.mem_append.mp hx with h | h
      · exact hlow x h
      · simp at h; subst h; exact ht
    have hidx := updateStartIndex_noModal hall
    have hne := append_cons_isEmpty low t []
    have hseg : onQuitScan (low ++ [t]) = quitScanAux [t] := by
      simp [onQuitScan, hne, hidx, drop_length_append]
    rw [hseg]
    cases h : t.quitOk <;> simp [quitScanAux, h]

/-- C6 witness: a vetoing layer on top of a modal layer stops the scan. -/
theorem stateManager_C6_witness :
    onQuitScan [exA, exB, { exC with quitOk := false }]
      = (false, [{ exC with quitOk := false }]) :=
  ((stateManager_C6_quitVeto.2.1 [exA] [{ exC with quitOk := false }] exB
    (by decide) (by decide)).2 [] [exB] { exC with quitOk := false }
    (by decide) (by decide) (by decide))

theorem smStep_flat_preserves {s : SMState} {a : SMAct} (hit : s.iterating = true)
    (hb : a ≠ SMAct.beginDispatch) (he : a ≠ SMAct.endDispatch) :
    (smStep s a).layers = s.layers ∧ (smStep s a).iterating = true := by
  cases a <;> simp_all [smStep]

/-- C1 counterexample: from a manager state mid-fan-out (`iterating_` set,
one layer, empty queue), a callback that queues a push, performs a nested
dispatch (which clears `iterating_` on exit), and then calls
`onEnterFrame()` gets the queued push applied while the outer fan-out is
still iterating: the observed layer sequence changes mid-frame. -/
theorem stateManager_C1_counterexample :
    (smRun { layers := [exA], pending := [], iterating := true }
        [SMAct.push exB, SMAct.beginDispatch, SMAct.endDispatch, SMAct.enterFrame]).layers
      ≠ [exA] := by
  decide

/-- C1 (amended): provided no callback performs a nested dispatch — the
`iterating_` guard is a single flag, not a counter, so a nested dispatch
clears it on exit — any sequence of `push`/`replaceTop`/`pop`/`clear`/
`onEnterFrame`/`onExitFrame` calls made while a fan-out is iterating
leaves the layer sequence unchanged and the guard set (so every callback
observes the frame-start sequence, and `onEnterFrame`/`onExitFrame` are
no-ops); a subsequent non-iterating `onEnterFrame`/`onExitFrame` call then
applies the whole queue. -/
theorem stateManager_C1_amended (s : SMState) (acts : List SMAct)
    (hit : s.iterating = true)
    (hflat : ∀ a ∈ acts, a ≠ SMAct.beginDispatch ∧ a ≠ SMAct.endDispatch) :
    (smRun s acts).layers = s.layers ∧ (smRun s acts).iterating = true ∧
    (∀ t : SMState, t.iterating = false →
      (smStep t SMAct.enterFrame).layers = (applyPendingOps t.layers t.pending).1 ∧
      (smStep t SMAct.exitFrame).layers = (applyPendingOps t.layers t.pending).1) := by
  have key : ∀ (acts : List SMAct) (s : SMState), s.iterating = true →
      (∀ a ∈ acts, a ≠ SMAct.beginDispatch ∧ a ≠ SMAct.endDispatch) →
      (smRun s acts).layers = s.layers ∧ (smRun s acts).iterating = true := by
    intro acts
    induction acts with
    | nil => intro s his _; exact ⟨rfl, his⟩
    | cons a as ih =>
      intro s his hfl
      have ha := hfl a (by simp)
      have hstep := smStep_flat_preserves his ha.1 ha.2
      have hrest := ih (smStep s a) hstep.2 (fun x hx => hfl x (by simp [hx]))
      exact ⟨hrest.1.trans hstep.1, hrest.2⟩
  exact ⟨(key acts s hit hflat).1, (key acts s hit hflat).2,
    fun t ht => by simp [smStep, ht]⟩

/-- C1 witness: a callback that queues a push and calls `onEnterFrame()`
(no nested dispatch) leaves the mid-fan-out layer sequence unchanged. -/
theorem stateManager_C1_witness :
    (smRun { layers := [exA], pending := [], iterating := true }
        [SMAct.push exB, SMAct.enterFrame]).layers = [exA] :=
  (stateManager_C1_amended { layers := [exA], pending := [], iterating := true }
    [SMAct.push exB, SMAct.enterFrame] rfl (by decide)).1

theorem dropLast_append_of_getLast? {ls : List Layer} {t : Layer}
    (h : ls.getLast? = some t) : ls.dropLast ++ [t] = ls := by
  have hne : ls ≠ [] := by
    intro he
    rw [he] at h
    simp at h
  have hl := List.getLast?_eq_getLast ls hne
  rw [hl] at h
  have ht : ls.getLast hne = t := by injection h
  rw [← ht]
  exact List.dropLast_append_getLast hne

theorem idMultiset_append (xs ys : List Layer) :
    idMultiset (xs ++ ys) = idMultiset xs + idMultiset ys := by
  simp only [idMultiset, List.map_append, ← Multiset.coe_add]

theorem idMultiset_single (y : Layer) : idMultiset [y] = {y.id} := rfl

theorem exitsOf_append (a b : List LifeEvent) :
    exitsOf (a ++ b) = exitsOf a ++ exitsOf b := by
  simp [exitsOf, List.filterMap_append]

theorem entersOf_append (a b : List LifeEvent) :
    entersOf (a ++ b) = entersOf a ++ entersOf b := by
  simp [entersOf, List.filterMap_append]

theorem exitsOf_map_exit (xs : List Layer) :
    exitsOf (xs.map (fun l => LifeEvent.exit l.id)) = xs.map Layer.id := by
  induction xs with
  | nil => rfl
  | cons a t ih => simpa [exitsOf, List.filterMap_cons] using ih

theorem entersOf_map_exit (xs : List Layer) :
    entersOf (xs.map (fun l => LifeEvent.exit l.id)) = ([] : List Nat) := by
  induction xs with
  | nil => rfl
  | cons a t ih => simp_all [entersOf, List.filterMap_cons]

theorem applyOp_conservation (ls : List Layer) (op : PendingOp) :
    idMultiset (applyOp ls op).1 + (exitsOf (applyOp ls op).2 : Multiset Nat)
      = idMultiset ls + (entersOf (applyOp ls op).2 : Multiset Nat) := by
  cases op with
  | push l =>
    show idMultiset (ls ++ [l]) + (([] : List Nat) : Multiset Nat)
        = idMultiset ls + (([l.id] : List Nat) : Multiset Nat)
    rw [Multiset.coe_nil, add_zero, idMultiset_append, idMultiset_single,
      Multiset.coe_singleton]
  | replaceTop l =>
    cases h : ls.getLast? with
    | none =>
      simp only [applyOp, h]
      show idMultiset (ls ++ [l]) + (([] : List Nat) : Multiset Nat)
          = idMultiset ls + (([l.id] : List Nat) : Multiset Nat)
      rw [Multiset.coe_nil, add_zero, idMultiset_append, idMultiset_single,
        Multiset.coe_singleton]
    | some t =>
      have hd := dropLast_append_of_getLast? h
      simp only [applyOp, h]
      show idMultiset (ls.dropLast ++ [l]) + (([t.id] : List Nat) : Multiset Nat)
          = idMultiset ls + (([l.id] : List Nat) : Multiset Nat)
      conv_rhs => rw [← hd]
      rw [Multiset.coe_singleton, Multiset.coe_singleton, idMultiset_append,
        idMultiset_append, idMultiset_single, idMultiset_single,
        add_assoc, add_assoc, add_comm ({l.id} : Multiset Nat)]
  | pop =>
    cases h : ls.getLast? with
    | none =>
      simp only [applyOp, h]
      show idMultiset ls + (([] : List Nat) : Multiset Nat)
          = idMultiset ls + (([] : List Nat) : Multiset Nat)
      rfl
    | some t =>
      have hd := dropLast_append_of_getLast? h
      simp only [applyOp, h]
      show idMultiset ls.dropLast + (([t.id] : List Nat) : Multiset Nat)
          = idMultiset ls + (([] : List Nat) : Multiset Nat)
      conv_rhs => rw [← hd]
      rw [Multiset.coe_nil, add_zero, Multiset.coe_singleton, idMultiset_append,
        idMultiset_single]
  | clear =>
    show idMultiset [] + (exitsOf (ls.reverse.map (fun l => LifeEvent.exit l.id)) : Multiset Nat)
        = idMultiset ls + (entersOf (ls.reverse.map (fun l => LifeEvent.exit l.id)) : Multiset Nat)
    rw [exitsOf_map_exit, entersOf_map_exit, Multiset.coe_nil, add_zero]
    show (0 : Multiset Nat) + ((ls.reverse.map Layer.id : List Nat) : Multiset Nat)
        = ((ls.map Layer.id : List Nat) : Multiset Nat)
    rw [zero_add]
    exact Multiset.coe_eq_coe.mpr ((List.reverse_perm ls).map Layer.id)

theorem applyPendingOps_conservation (ops : List PendingOp) : ∀ ls : List Layer,
    idMultiset (applyPendingOps ls ops).1 + (exitsOf (applyPendingOps ls ops).2 : Multiset Nat)
      = idMultiset ls + (entersOf (applyPendingOps ls ops).2 : Multiset Nat) := by
  induction ops with
  | nil => intro ls; simp [applyPendingOps, entersOf, exitsOf]
  | cons op ops ih =>
    intro ls
    have hop := applyOp_conservation ls op
    have hrest := ih (applyOp ls op).1
    simp only [applyPendingOps, exitsOf_append, entersOf_append, ← Multiset.coe_add]
    calc idMultiset (applyPendingOps (applyOp ls op).1 ops).1
        + ((exitsOf (applyOp ls op).2 : Multiset Nat)
          + (exitsOf (applyPendingOps (applyOp ls op).1 ops).2 : Multiset Nat))
        = (idMultiset (applyPendingOps (applyOp ls op).1 ops).1
            + (exitsOf (applyPendingOps (applyOp ls op).1 ops).2 : Multiset Nat))
          + (exitsOf (applyOp ls op).2 : Multiset Nat) := by
          rw [add_comm (exitsOf (applyOp ls op).2 : Multiset Nat), ← add_assoc]
      _ = (idMultiset (applyOp ls op).1
            + (entersOf (applyPendingOps (applyOp ls op).1 ops).2 : Multiset Nat))
          + (exitsOf (applyOp ls op).2 : Multiset Nat) := by rw [hrest]
      _ = (idMultiset (applyOp ls op).1 + (exitsOf (applyOp ls op).2 : Multiset Nat))
          + (entersOf (applyPendingOps (applyOp ls op).1 ops).2 : Multiset Nat) := by
          rw [add_assoc, add_comm (entersOf (applyPendingOps (applyOp ls op).1 ops).2
            : Multiset Nat), ← add_assoc]
      _ = (idMultiset ls + (entersOf (applyOp ls op).2 : Multiset Nat))
          + (entersOf (applyPendingOps (applyOp ls op).1 ops).2 : Multiset Nat) := by
          rw [hop]
      _ = idMultiset ls + ((entersOf (applyOp ls op).2 : Multiset Nat)
          + (entersOf (applyPendingOps (applyOp ls op).1 ops).2 : Multiset Nat)) := by
          rw [add_assoc]

theorem pushedIds_cons (op : PendingOp) (ops : List PendingOp) :
    pushedIds (op :: ops) = pushedIds [op] ++ pushedIds ops := by
  cases op <;> simp [pushedIds]

theorem entersOf_applyOp (ls : List Layer) (op : PendingOp) :
    entersOf (applyOp ls op).2 = pushedIds [op] := by
  cases op with
  | push l => simp [applyOp, entersOf, pushedIds]
  | replaceTop l =>
    cases h : ls.getLast? with
    | none => simp [applyOp, h, entersOf, pushedIds]
    | some t => simp [applyOp, h, entersOf, pushedIds]
  | pop =>
    cases h : ls.getLast? with
    | none => simp [applyOp, h, entersOf, pushedIds]
    | some t => simp [applyOp, h, entersOf, pushedIds]
  | clear =>
    show entersOf (ls.reverse.map (fun l => LifeEvent.exit l.id)) = pushedIds [PendingOp.clear]
    rw [entersOf_map_exit]
    rfl

theorem entersOf_applyPendingOps (ops : List PendingOp) : ∀ ls : List Layer,
    entersOf (applyPendingOps ls ops).2 = pushedIds ops := by
  induction ops with
  | nil => intro ls; simp [applyPendingOps, entersOf, pushedIds]
  | cons op ops ih =>
    intro ls
    have h1 := entersOf_applyOp ls op
    have h2 := ih (applyOp ls op).1
    simp only [applyPendingOps, entersOf_append]
    rw [h1, h2, ← pushedIds_cons]

/-- C9: applying queued PendingOps emits exactly one `onEnter()` per applied
Push/ReplaceTop (in arrival order), balances every removal with exactly one
`onExit()` (the surviving identities plus the exited ones are the original
identities plus the entered ones), Clear exits all layers top-to-bottom
before emptying the stack, and Pop/ReplaceTop removal on an empty stack
removes nothing and calls no `onExit()`; when a removal happens, the `exit`
event is emitted within that op, before the layer is dropped. -/
theorem stateManager_C9_lifecyclePairing (ls : List Layer) (ops : List PendingOp) :
    entersOf (applyPendingOps ls ops).2 = pushedIds ops ∧
    idMultiset (applyPendingOps ls ops).1 + (exitsOf (applyPendingOps ls ops).2 : Multiset Nat)
      = idMultiset ls + (entersOf (applyPendingOps ls ops).2 : Multiset Nat) ∧
    applyOp ls PendingOp.clear = ([], ls.reverse.map (fun l => LifeEvent.exit l.id)) ∧
    applyOp [] PendingOp.pop = ([], []) ∧
    (∀ l : Layer, applyOp [] (PendingOp.replaceTop l) = ([l], [LifeEvent.enter l.id])) ∧
    (∀ (l t : Layer), ls.getLast? = some t →
      applyOp ls PendingOp.pop = (ls.dropLast, [LifeEvent.exit t.id]) ∧
      applyOp ls (PendingOp.replaceTop l)
        = (ls.dropLast ++ [l], [LifeEvent.exit t.id, LifeEvent.enter l.id]) ∧
      applyOp ls (PendingOp.push l) = (ls ++ [l], [LifeEvent.enter l.id])) := by
  refine ⟨entersOf_applyPendingOps ops ls, applyPendingOps_conservation ops ls,
    rfl, rfl, fun l => rfl, fun l t h => ⟨?_, ?_, rfl⟩⟩
  · simp [applyOp, h]
  · simp [applyOp, h]

/-- C9 witness: popping from `[A, B]` exits exactly the top layer B. -/
theorem stateManager_C9_witness :
    applyOp [exA, exB] PendingOp.pop = ([exA], [LifeEvent.exit 1]) :=
  ((stateManager_C9_lifecyclePairing [exA, exB] []).2.2.2.2.2 exC exB rfl).1

/-- C8: the scheduler `running_` flag changes only through guarded
transitions — `Runtime::run` called when not initialized or when already
running reports the error and returns with the flags unchanged;
`Runtime::quit` clears `running_` only when currently running and
`onQuitRequested()` approves, and otherwise leaves the state unchanged. -/
theorem runtime_C8_guardedTransitions (s : RuntimeFlags) (allow : Bool) :
    (s.initialized = false → runStart s = (s, RunAttempt.rejectedNotInitialized)) ∧
    (s.initialized = true → s.running = true →
        runStart s = (s, RunAttempt.rejectedAlreadyRunning)) ∧
    (s.initialized = true → s.running = false →
        runStart s = ({ s with running := true }, RunAttempt.entered)) ∧
    (s.running = true → allow = true → quitCall allow s = { s with running := false }) ∧
    (s.running = false → quitCall allow s = s) ∧
    (allow = false → quitCall allow s = s) := by
  obtain ⟨i, r⟩ := s
  cases i <;> cases r <;> cases allow <;> decide

/-- C8 witness: a vetoed quit on a running scheduler changes nothing. -/
theorem runtime_C8_witness :
    quitCall false { initialized := true, running := true }
      = { initialized := true, running := true } :=
  (runtime_C8_guardedTransitions { initialized := true, running := true } false).2.2.2.2.2 rfl

theorem clockApply_preserves {c : ClockState} (h : c.start_ = c.end_) (op : ClockOp) :
    (clockApply c op).start_ = (clockApply c op).end_ := by
  have hrun : c.running = false := by
    simp [ClockState.running, h]
  cases op with
  | start n => simp [clockApply, clockStart, hrun]
  | stop n => simp [clockApply, clockStop, hrun, h]
  | restart n1 n2 =>
    simp [clockApply, clockRestart, clockStop, clockStart, hrun, ClockState.running, h]
  | reset n => simp [clockApply, clockReset]

/-- C10: a default-constructed `Clock` has equal start and end timestamps,
and every operation among `start()`, `stop()`, `restart()`, `reset()`
preserves that equality; hence after any call history `running()` is false,
`elapsed()`/`elapsedSeconds()`/`elapsedMilliseconds()` are zero, `stop()`
is a no-op, and `restart()` returns the zero duration. -/
theorem clock_C10_stuckStopwatch (now0 : Nat) (ops : List ClockOp) :
    (clockRunOps (clockInit now0) ops).start_ = (clockRunOps (clockInit now0) ops).end_ ∧
    (clockRunOps (clockInit now0) ops).running = false ∧
    elapsedDuration (clockRunOps (clockInit now0) ops) = 0 ∧
    elapsedSecondsQ (clockRunOps (clockInit now0) ops) = 0 ∧
    elapsedMillisecondsQ (clockRunOps (clockInit now0) ops) = 0 ∧
    (∀ n, clockStop n (clockRunOps (clockInit now0) ops) = clockRunOps (clockInit now0) ops) ∧
    (∀ n1 n2, (clockRestart n1 n2 (clockRunOps (clockInit now0) ops)).2 = 0) := by
  have key : ∀ (ops : List ClockOp) (c : ClockState), c.start_ = c.end_ →
      (clockRunOps c ops).start_ = (clockRunOps c ops).end_ := by
    intro ops
    induction ops with
    | nil => intro c hc; exact hc
    | cons op rest ih =>
      intro c hc
      exact ih (clockApply c op) (clockApply_preserves hc op)
  have hse : (clockRunOps (clockInit now0) ops).start_
      = (clockRunOps (clockInit now0) ops).end_ := key ops (clockInit now0) rfl
  have hrun : (clockRunOps (clockInit now0) ops).running = false := by
    simp [ClockState.running, hse]
  have hdur : elapsedDuration (clockRunOps (clockInit now0) ops) = 0 := by
    simp [elapsedDuration, hse]
  refine ⟨hse, hrun, hdur, ?_, ?_, ?_, ?_⟩
  · simp [elapsedSecondsQ, hdur]
  · simp [elapsedMillisecondsQ, hdur]
  · intro n
    simp [clockStop, hrun]
  · intro n1 n2
    simp [clockRestart, clockStop, hrun, elapsedDuration, hse]

theorem fixedLoop_count {ft : ℚ} (hft : 0 < ft) :
    ∀ (fuel : Nat) (acc : ℚ), 0 ≤ acc →
      (fixedLoop ft acc fuel).2 = min (Nat.floor (acc / ft)) fuel := by
  intro fuel
  induction fuel with
  | zero => intro acc hacc; simp [fixedLoop]
  | succ n ih =>
    intro acc hacc
    by_cases h : ft ≤ acc
    · have hpos : (1 : ℚ) ≤ acc / ft := (one_le_div hft).mpr h
      have hfl : 1 ≤ Nat.floor (acc / ft) := Nat.le_floor (by exact_mod_cast hpos)
      have hsub : (0 : ℚ) ≤ acc - ft := by linarith
      have hdiv : (acc - ft) / ft = acc / ft - 1 := by
        rw [sub_div, div_self (ne_of_gt hft)]
      have hkey : Nat.floor ((acc - ft) / ft) = Nat.floor (acc / ft) - 1 := by
        rw [hdiv, Nat.floor_sub_one]
      simp only [fixedLoop, if_pos h]
      rw [ih (acc - ft) hsub, hkey]
      omega
    · push_neg at h
      have h1 : acc / ft < 1 := (div_lt_one hft).mpr h
      have h0 : Nat.floor (acc / ft) = 0 := Nat.floor_eq_zero.mpr h1
      simp [fixedLoop, not_le.mpr h, h0]

theorem fmod_lt {a b : ℚ} (hb : 0 < b) : fmod a b < b := by
  rw [fmod, mul_comm]
  exact Int.sub_floor_div_mul_lt a hb

/-- C2: in each `Runtime::run` iteration the number of
`onFixedUpdate(fixedTimestep)` calls is `min(floor(accumulator /
fixedTimestep), maxUpdatesPerTick)`; the post-frame accumulator is always
strictly below one fixed timestep; if the accumulator still holds a full
timestep after the cap, it is truncated via `std::fmod`; and with
`maxUpdatesPerTick = 10` and an accumulator exceeding `10 * fixedTimestep`
exactly 10 fixed updates run and the leftover is below one timestep. -/
theorem runtime_C2_catchUpCap (ft : ℚ) (maxU : Nat) (acc : ℚ)
    (hft : 0 < ft) (hacc : 0 ≤ acc) :
    (frameAdvance ft maxU acc).2 = min (Nat.floor (acc / ft)) maxU ∧
    (frameAdvance ft maxU acc).1 < ft ∧
    (ft ≤ (fixedLoop ft acc maxU).1 →
      (frameAdvance ft maxU acc).1 = fmod (fixedLoop ft acc maxU).1 ft) ∧
    (maxU = 10 → 10 * ft < acc →
      (frameAdvance ft maxU acc).2 = 10 ∧ (frameAdvance ft maxU acc).1 < ft) := by
  have hFA : frameAdvance ft maxU acc
      = if ft ≤ (fixedLoop ft acc maxU).1
        then (fmod (fixedLoop ft acc maxU).1 ft, (fixedLoop ft acc maxU).2)
        else fixedLoop ft acc maxU := rfl
  have hsnd : (frameAdvance ft maxU acc).2 = (fixedLoop ft acc maxU).2 := by
    rw [hFA]
    by_cases h : ft ≤ (fixedLoop ft acc maxU).1
    · rw [if_pos h]
    · rw [if_neg h]
  have hcount : (frameAdvance ft maxU acc).2 = min (Nat.floor (acc / ft)) maxU := by
    rw [hsnd, fixedLoop_count hft maxU acc hacc]
  have hlt : (frameAdvance ft maxU acc).1 < ft := by
    rw [hFA]
    by_cases h : ft ≤ (fixedLoop ft acc maxU).1
    · rw [if_pos h]
      exact fmod_lt hft
    · rw [if_neg h]
      exact lt_of_not_le h
  refine ⟨hcount, hlt, ?_, ?_⟩
  · intro h
    rw [hFA, if_pos h]
  · intro hmax hbig
    subst hmax
    have hdiv : (10 : ℚ) ≤ acc / ft := (le_div_iff₀ hft).mpr (le_of_lt hbig)
    have hfl : 10 ≤ Nat.floor (acc / ft) := Nat.le_floor (by exact_mod_cast hdiv)
    constructor
    · rw [hcount]
      omega
    · exact hlt

/-- C2 witness: one fixed timestep of 1 with accumulator 25, cap 10. -/
theorem runtime_C2_witness :
    (frameAdvance 1 10 25).2 = min (Nat.floor ((25 : ℚ) / 1)) 10 ∧
    (frameAdvance 1 10 25).1 < 1 :=
  ⟨(runtime_C2_catchUpCap 1 10 25 (by decide) (by decide)).1,
   (runtime_C2_catchUpCap 1 10 25 (by decide) (by decide)).2.1⟩

/-- C7: the interpolation value passed to render equals the post-catch-up
accumulator over the fixed timestep clamped to at most 0.999999, lies in
`[0, 1)`, and is exactly 0 when the accumulator is zero or negative. -/
theorem runtime_C7_interpolationRange (ft acc : ℚ) (hft : 0 < ft) :
    0 ≤ interpolation ft acc ∧ interpolation ft acc < 1 ∧
    (acc ≤ 0 → interpolation ft acc = 0) ∧
    (0 < acc → interpolation ft acc = min (acc / ft) 0.999999) := by
  by_cases h : 0 < acc
  · have hdef : interpolation ft acc = min (acc / ft) 0.999999 := by
      unfold interpolation
      rw [if_pos h]
    refine ⟨?_, ?_, fun hle => absurd h (not_lt.mpr hle), fun _ => hdef⟩
    · rw [hdef]
      exact le_min (div_nonneg h.le hft.le) (by norm_num)
    · rw [hdef]
      exact lt_of_le_of_lt (min_le_right _ _) (by norm_num)
  · have hdef : interpolation ft acc = 0 := by
      unfold interpolation
      rw [if_neg h]
    exact ⟨by simp [hdef], by simp [hdef], fun _ => hdef, fun hpos => absurd hpos h⟩

/-- C7 witness: timestep 1, accumulator 1/2. -/
theorem runtime_C7_witness :
    0 ≤ interpolation 1 (1 / 2) ∧ interpolation 1 (1 / 2) < 1 :=
  ⟨(runtime_C7_interpolationRange 1 (1 / 2) (by decide)).1,
   (runtime_C7_interpolationRange 1 (1 / 2) (by decide)).2.1⟩
